import Mathlib

/-!
Verification development for the Archestra security proxy.

The definitions below are a shallow embedding of the TypeScript source:
JSON values become an inductive type, the policy evaluators become pure
recursive functions, external builtins (`new RegExp`, `JSON.parse`,
upstream LLM clients) are passed in as explicit function parameters, and
exceptions become `Except`.
-/

namespace Archestra

/-- JSON values.  Numbers are modelled as rationals: every number that
`JSON.parse` can produce is a finite decimal, hence rational. -/
inductive Json where
  | null
  | bool (b : Bool)
  | num (q : Rat)
  | str (s : String)
  | arr (elems : List Json)
  | obj (fields : List (String × Json))
  deriving Repr, BEq

/-- Does `needle` occur as a contiguous run inside `haystack`?  (Char-list
worker for the JavaScript string predicates; written by structural
recursion so that concrete instances evaluate in the kernel.) -/
def charsInfix (needle : List Char) : List Char → Bool
  | [] => needle.isEmpty
  | c :: rest => needle.isPrefixOf (c :: rest) || charsInfix needle rest

/-- JavaScript `haystack.includes(needle)`: substring containment
(`"".includes("")` is `true`). -/
def strIncludes (haystack needle : String) : Bool :=
  charsInfix needle.data haystack.data

/-- JavaScript `s.startsWith(p)`. -/
def jsStartsWith (s p : String) : Bool :=
  p.data.isPrefixOf s.data

/-- JavaScript `s.endsWith(p)`. -/
def jsEndsWith (s p : String) : Bool :=
  p.data.isSuffixOf s.data

/-! ## Lodash path lookup (`_.get`)

`ToolInvocationPolicyModel.evaluateForAgent` extracts the argument value
with `_.get(toolInput, argumentName)`.  We model lodash's path
tokenisation for the dotted / bracket-indexed forms (`a.b`, `a[0].c`);
quoted bracket keys are not modelled. -/

/-- Split a character list on a separator character. -/
def splitChars (sep : Char) : List Char → List (List Char)
  | [] => [[]]
  | c :: rest =>
    if c = sep then [] :: splitChars sep rest
    else
      match splitChars sep rest with
      | [] => [[c]]
      | g :: gs => (c :: g) :: gs

/-- Split one dot-segment into its leading name and bracket indices:
`"name[0][1]"` becomes `["name", "0", "1"]`. -/
def segmentToKeys (seg : List Char) : List (List Char) :=
  match splitChars '[' seg with
  | [] => []
  | first :: brs =>
    (if first.isEmpty then [] else [first]) ++
      brs.map (fun b => b.takeWhile (fun c => c ≠ ']'))

/-- Tokenise a lodash-style path string into a key list. -/
def stringToPath (path : String) : List String :=
  ((splitChars '.' path.data).flatMap segmentToKeys).map String.mk

/-- Parse a key that consists only of decimal digits (array index). -/
def keyToNat? (k : String) : Option Nat :=
  if k.data ≠ [] && k.data.all Char.isDigit then
    some (k.data.foldl (fun n c => n * 10 + (c.toNat - '0'.toNat)) 0)
  else none

/-- Walk a key list through a JSON value; `none` models JavaScript
`undefined` (a JSON `null` leaf is `some .null`, not `none`). -/
def getPath : Json → List String → Option Json
  | j, [] => some j
  | .obj fields, k :: ks =>
    match fields.lookup k with
    | some v => getPath v ks
    | none => none
  | .arr elems, k :: ks =>
    match keyToNat? k with
    | some i =>
      match elems[i]? with
      | some v => getPath v ks
      | none => none
    | none => none
  | _, _ :: _ => none

/-- `_.get(toolInput, argumentName)`. -/
def lodashGet (j : Json) (path : String) : Option Json :=
  getPath j (stringToPath path)

/-! ## Tool-invocation policy evaluator (`ToolInvocationPolicyModel.evaluateForAgent`) -/

inductive Operator where
  | endsWith
  | startsWith
  | contains
  | notContains
  | equal
  | notEqual
  | regex
  deriving Repr, DecidableEq

inductive PolicyAction where
  | allow
  | block
  deriving Repr, DecidableEq

/-- One tool-invocation policy row, restricted to the fields the evaluator
reads.  `blockPrompt := ""` models a null/absent `blockPrompt` (both are
falsy under the source's `blockPrompt || ...`). -/
structure ToolInvocationPolicy where
  argumentName : String
  operator : Operator
  value : String
  action : PolicyAction
  description : String
  blockPrompt : String
  deriving Repr, DecidableEq

structure EvaluationResult where
  isAllowed : Bool
  denyReason : String
  deriving Repr, DecidableEq

/-- Model of the JavaScript `new RegExp pattern` constructor followed by
`.test`: compilation either throws a `SyntaxError` (`.error ()`) or yields
a test predicate.  The regex engine itself is a host builtin, so it is a
parameter of the embedding. -/
def JsRegExp : Type := String → Except Unit (String → Bool)

/-- The `switch (operator)` block of `evaluateForAgent` computing
`conditionMet`.  String operators are `false` on non-string argument
values; `equal` is JavaScript `===` against the (string) policy value; the
`regex` arm compiles the pattern only after the `typeof` check succeeds,
and a compilation failure escapes as an exception. -/
def conditionMet (re : JsRegExp) (op : Operator) (v : Json) (policyValue : String) :
    Except Unit Bool :=
  match op with
  | .endsWith =>
    .ok (match v with | .str s => jsEndsWith s policyValue | _ => false)
  | .startsWith =>
    .ok (match v with | .str s => jsStartsWith s policyValue | _ => false)
  | .contains =>
    .ok (match v with | .str s => strIncludes s policyValue | _ => false)
  | .notContains =>
    .ok (match v with | .str s => !(strIncludes s policyValue) | _ => false)
  | .equal =>
    .ok (match v with | .str s => s == policyValue | _ => false)
  | .notEqual =>
    .ok (match v with | .str s => s != policyValue | _ => true)
  | .regex =>
    match v with
    | .str s => (re policyValue).map (fun t => t s)
    | _ => .ok false

/-- The deny reason: `blockPrompt || "Policy violation: " + description`
(an empty `blockPrompt` is falsy and falls back to the description). -/
def denyReasonOf (p : ToolInvocationPolicy) : String :=
  if p.blockPrompt = "" then "Policy violation: " ++ p.description
  else p.blockPrompt

/-- `ToolInvocationPolicyModel.evaluateForAgent`, after the store has
returned the applicable policies in retrieval order.  An uncaught
JavaScript exception (only the regex arm can throw) is `Except.error`. -/
def evaluateForAgent (re : JsRegExp) (policies : List ToolInvocationPolicy)
    (toolInput : Json) : Except Unit EvaluationResult :=
  match policies with
  | [] => .ok { isAllowed := true, denyReason := "" }
  | p :: rest =>
    match lodashGet toolInput p.argumentName with
    | none =>
      if p.action = .block then
        evaluateForAgent re rest toolInput
      else
        .ok { isAllowed := false,
              denyReason := "Missing required argument: " ++ p.argumentName }
    | some v =>
      match conditionMet re p.operator v p.value with
      | .error e => .error e
      | .ok c =>
        if p.action = .allow then
          if !c then
            .ok { isAllowed := false, denyReason := denyReasonOf p }
          else
            evaluateForAgent re rest toolInput
        else
          if c then
            .ok { isAllowed := false, denyReason := denyReasonOf p }
          else
            evaluateForAgent re rest toolInput

/-- If evaluation of a non-empty policy list returns an allowed result, the
head policy passed and the same result comes from the tail. -/
lemma evaluateForAgent_allowed_tail (re : JsRegExp) (toolInput : Json)
    (q : ToolInvocationPolicy) (qs : List ToolInvocationPolicy) (r : EvaluationResult)
    (h : evaluateForAgent re (q :: qs) toolInput = .ok r) (ha : r.isAllowed = true) :
    evaluateForAgent re qs toolInput = .ok r := by
  unfold evaluateForAgent at h
  split at h
  · split at h
    · exact h
    · cases h
      simp at ha
  · split at h
    · cases h
    · split at h
      · split at h
        · cases h
          simp at ha
        · exact h
      · split at h
        · cases h
          simp at ha
        · exact h

/-- An allowed evaluation result is exactly `{isAllowed := true, denyReason := ""}`. -/
lemma evaluateForAgent_allowed_eq (re : JsRegExp) (toolInput : Json) :
    ∀ (policies : List ToolInvocationPolicy) (r : EvaluationResult),
      evaluateForAgent re policies toolInput = .ok r → r.isAllowed = true →
      r = { isAllowed := true, denyReason := "" }
  | [], r, h, _ => by
    unfold evaluateForAgent at h
    cases h
    rfl
  | q :: qs, r, h, ha =>
    evaluateForAgent_allowed_eq re toolInput qs r
      (evaluateForAgent_allowed_tail re toolInput q qs r h ha) ha

/-- C2: an applicable policy whose argument is absent from the tool input
denies the call when its action is `allow`, with reason
`"Missing required argument: {argumentName}"`; a `block` policy on an
absent argument is skipped (the evaluation of the remaining policies is
unchanged, so it cannot itself deny); and consequently, whenever any
`allow` policy in the list has an absent argument, a normally-returned
evaluation result is a denial. -/
theorem c2_missing_argument_fail_closed (re : JsRegExp)
    (p : ToolInvocationPolicy) (rest policies : List ToolInvocationPolicy)
    (toolInput : Json) :
    (p.action = .allow → lodashGet toolInput p.argumentName = none →
      evaluateForAgent re (p :: rest) toolInput =
        .ok { isAllowed := false,
              denyReason := "Missing required argument: " ++ p.argumentName })
    ∧ (p.action = .block → lodashGet toolInput p.argumentName = none →
      evaluateForAgent re (p :: rest) toolInput = evaluateForAgent re rest toolInput)
    ∧ (p ∈ policies → p.action = .allow → lodashGet toolInput p.argumentName = none →
      ∀ r, evaluateForAgent re policies toolInput = .ok r → r.isAllowed = false) := by
  refine ⟨?_, ?_, ?_⟩
  · intro ha hm
    simp [evaluateForAgent, hm, ha]
  · intro hb hm
    simp [evaluateForAgent, hm, hb]
  · intro hmem ha hm
    induction policies with
    | nil => exact absurd hmem (List.not_mem_nil p)
    | cons q qs ih =>
      intro r hr
      rcases List.mem_cons.mp hmem with heq | hmem'
      · subst heq
        rw [show evaluateForAgent re (p :: qs) toolInput =
              .ok { isAllowed := false,
                    denyReason := "Missing required argument: " ++ p.argumentName } by
            simp [evaluateForAgent, hm, ha]] at hr
        cases hr
        rfl
      · cases hb : r.isAllowed
        · rfl
        · exact absurd (ih hmem' r (evaluateForAgent_allowed_tail re toolInput q qs r hr hb))
            (by simp [hb])

/-- Witness for C2 at the spec's "allow gate missing arg" scenario:
`readFile({})` against an allow policy on `path`. -/
theorem c2_missing_argument_fail_closed_witness :
    evaluateForAgent (fun _ => .ok (fun _ => false))
      [{ argumentName := "path", operator := .startsWith, value := "/home/",
         action := .allow, description := "Reads must stay in /home", blockPrompt := "" }]
      (.obj []) =
      .ok { isAllowed := false, denyReason := "Missing required argument: path" } :=
  (c2_missing_argument_fail_closed (fun _ => .ok (fun _ => false))
    { argumentName := "path", operator := .startsWith, value := "/home/",
      action := .allow, description := "Reads must stay in /home", blockPrompt := "" }
    [] [] (.obj [])).1 rfl rfl

/-- C3: policies are evaluated in list (retrieval) order and the first
denial wins — a denying head policy fixes the result no matter what
follows; a passing head policy leaves the result to the tail; a `block`
policy denies exactly when its operator matches and an `allow` policy
denies exactly when it does not; the deny reason is `blockPrompt` when
non-empty and otherwise `"Policy violation: " ++ description`; and when no
policy denies, the result is `{isAllowed := true, denyReason := ""}`. -/
theorem c3_first_denial_wins (re : JsRegExp)
    (p : ToolInvocationPolicy) (rest policies : List ToolInvocationPolicy)
    (toolInput : Json) (v : Json) :
    (evaluateForAgent re [] toolInput = .ok { isAllowed := true, denyReason := "" })
    ∧ (lodashGet toolInput p.argumentName = some v →
        (conditionMet re p.operator v p.value = .ok true → p.action = .block →
          evaluateForAgent re (p :: rest) toolInput =
            .ok { isAllowed := false, denyReason := denyReasonOf p })
        ∧ (conditionMet re p.operator v p.value = .ok false → p.action = .allow →
          evaluateForAgent re (p :: rest) toolInput =
            .ok { isAllowed := false, denyReason := denyReasonOf p })
        ∧ (conditionMet re p.operator v p.value = .ok false → p.action = .block →
          evaluateForAgent re (p :: rest) toolInput = evaluateForAgent re rest toolInput)
        ∧ (conditionMet re p.operator v p.value = .ok true → p.action = .allow →
          evaluateForAgent re (p :: rest) toolInput = evaluateForAgent re rest toolInput))
    ∧ (p.blockPrompt = "" → denyReasonOf p = "Policy violation: " ++ p.description)
    ∧ (p.blockPrompt ≠ "" → denyReasonOf p = p.blockPrompt)
    ∧ (∀ r, evaluateForAgent re policies toolInput = .ok r → r.isAllowed = true →
        r = { isAllowed := true, denyReason := "" }) := by
  refine ⟨rfl, ?_, ?_, ?_, fun r => evaluateForAgent_allowed_eq re toolInput policies r⟩
  · intro hv
    refine ⟨?_, ?_, ?_, ?_⟩ <;> intro hc hact <;> simp [evaluateForAgent, hv, hc, hact]
  · intro h
    simp [denyReasonOf, h]
  · intro h
    simp [denyReasonOf, h]

/-- Witness for C3 at the spec's "block by suffix" scenario:
`sendEmail({to: "x@grafana.com"})` against a block policy with operator
`endsWith` and value `"@grafana.com"`. -/
theorem c3_first_denial_wins_witness :
    evaluateForAgent (fun _ => .ok (fun _ => false))
      [{ argumentName := "to", operator := .endsWith, value := "@grafana.com",
         action := .block, description := "Cannot send emails to @grafana.com domain",
         blockPrompt := "" }]
      (.obj [("to", .str "x@grafana.com"), ("body", .str "hi")]) =
      .ok { isAllowed := false,
            denyReason := "Policy violation: Cannot send emails to @grafana.com domain" } := by
  have h := (c3_first_denial_wins (fun _ => .ok (fun _ => false))
    { argumentName := "to", operator := .endsWith, value := "@grafana.com",
      action := .block, description := "Cannot send emails to @grafana.com domain",
      blockPrompt := "" }
    [] [] (.obj [("to", .str "x@grafana.com"), ("body", .str "hi")])
    (.str "x@grafana.com")).2.1 rfl
  exact h.1 rfl rfl

/-- Counterexample to C6.  `new RegExp("(")` throws a `SyntaxError` in
JavaScript; the `regex` arm of `evaluateForAgent` has no try/catch, so on
a policy whose value is the non-compiling pattern `"("` the evaluator
aborts with the exception instead of skipping the policy: it does not
return the normal allow result that skipping (here: evaluating the empty
remainder) would produce. -/
theorem c6_regex_throw_counterexample :
    evaluateForAgent (fun pat => if pat = "(" then .error () else .ok (fun _ => false))
      [{ argumentName := "path", operator := .regex, value := "(",
         action := .block, description := "bad pattern", blockPrompt := "" }]
      (.obj [("path", .str "/tmp/x")]) = .error ()
    ∧ evaluateForAgent (fun pat => if pat = "(" then .error () else .ok (fun _ => false))
        [] (.obj [("path", .str "/tmp/x")]) =
        .ok { isAllowed := true, denyReason := "" }
    ∧ (Except.error () : Except Unit EvaluationResult) ≠
        .ok { isAllowed := true, denyReason := "" } := by
  refine ⟨rfl, rfl, ?_⟩
  intro h
  cases h

/-- C6 amended: a policy whose operator is `regex` and whose value fails
to compile is not skipped — once the evaluator reaches it with a string
argument value, the compilation exception propagates out of
`evaluateForAgent` (and hence fails the request), instead of yielding a
normal allow/deny result. -/
theorem c6_regex_compile_failure_propagates (re : JsRegExp)
    (p : ToolInvocationPolicy) (rest : List ToolInvocationPolicy)
    (toolInput : Json) (s : String)
    (hop : p.operator = .regex)
    (hv : lodashGet toolInput p.argumentName = some (.str s))
    (hre : re p.value = .error ()) :
    evaluateForAgent re (p :: rest) toolInput = .error () := by
  simp [evaluateForAgent, hv, conditionMet, hop, hre, Except.map]

/-- Witness for the amended C6 at the concrete non-compiling pattern `"("`. -/
theorem c6_regex_compile_failure_propagates_witness :
    evaluateForAgent (fun pat => if pat = "(" then .error () else .ok (fun _ => false))
      [{ argumentName := "arg", operator := .regex, value := "(",
         action := .allow, description := "d", blockPrompt := "" }]
      (.obj [("arg", .str "hello")]) = .error () :=
  c6_regex_compile_failure_propagates
    (fun pat => if pat = "(" then .error () else .ok (fun _ => false))
    { argumentName := "arg", operator := .regex, value := "(",
      action := .allow, description := "d", blockPrompt := "" }
    [] (.obj [("arg", .str "hello")]) "hello" rfl rfl rfl

/-! ## JSON serialisation (`JSON.stringify`)

Used by the streaming branch of the proxy (`data: ${JSON.stringify(chunk)}`)
and by the quarantined-agent prompt.  Escaping covers the characters that
occur in this development; integers print exactly. -/

/-- Escape one character for a JSON string literal. -/
def escapeJsonChar (c : Char) : List Char :=
  if c = '"' then ['\\', '"']
  else if c = '\\' then ['\\', '\\']
  else if c = '\n' then ['\\', 'n']
  else if c = '\t' then ['\\', 't']
  else [c]

/-- Escape a string for inclusion in a JSON string literal. -/
def escapeJsonString (s : String) : String :=
  String.mk (s.data.flatMap escapeJsonChar)

/-- Render a JSON number the way JavaScript does for the values used here:
integers print without a fractional part. -/
def numToString (q : Rat) : String :=
  if q.den = 1 then toString q.num else toString q

mutual

/-- Compact `JSON.stringify`. -/
def jsonStringify : Json → String
  | .null => "null"
  | .bool true => "true"
  | .bool false => "false"
  | .num q => numToString q
  | .str s => "\"" ++ escapeJsonString s ++ "\""
  | .arr elems => "[" ++ String.intercalate "," (stringifyList elems) ++ "]"
  | .obj fields => "\x7b" ++ String.intercalate "," (stringifyFields fields) ++ "\x7d"

/-- Serialise the elements of a JSON array. -/
def stringifyList : List Json → List String
  | [] => []
  | j :: rest => jsonStringify j :: stringifyList rest

/-- Serialise the fields of a JSON object. -/
def stringifyFields : List (String × Json) → List String
  | [] => []
  | (k, v) :: rest =>
    ("\"" ++ escapeJsonString k ++ "\":" ++ jsonStringify v) :: stringifyFields rest

end

/-! ## Proxy egress (`llmProviderProxyRoutes`, `POST /v1/:provider/chat/completions`)

The handler's collaborators that live outside `src/` or are host builtins
are parameters: `JSON.parse` (which can throw) and the guardrails
`ToolInvocationPolicyEvaluator` consulted per tool call. -/

/-- Model of `JSON.parse`: the parsed value, or the thrown `SyntaxError`
message. -/
def JsJsonParse : Type := String → Except String Json

/-- The guardrails `ToolInvocationPolicyEvaluator` (constructed per tool
call from `(toolName, input)`); its `evaluate()` result. -/
def ToolGate : Type := String → Json → EvaluationResult

/-- One entry of `assistantMessage.tool_calls`: its `type`, and the
`function.name` / `function.arguments` fields read by the handler. -/
structure ProxyToolCall where
  ty : String
  name : String
  arguments : String
  deriving Repr, DecidableEq

/-- The slice of the assistant message the egress phase reads. -/
structure AssistantMessage where
  tool_calls : List ProxyToolCall
  deriving Repr, DecidableEq

/-- An upstream chat-completion response: its first choice's message plus
the rest of the body, which the handler never touches. -/
structure ChatResponse where
  firstChoiceMessage : AssistantMessage
  restOfBody : Json
  deriving Repr

/-- What the handler sends back. -/
inductive HttpOutcome where
  | errorResponse (status : Nat) (errType : String) (message : String)
  | sent (response : ChatResponse)
  deriving Repr

/-- The observable effect of the egress phase: the `Interaction` contents
persisted, and the HTTP outcome. -/
structure EgressResult where
  persisted : List AssistantMessage
  outcome : HttpOutcome
  deriving Repr

/-- The `for (const toolCall of assistantMessage.tool_calls)` loop:
`.error e` models a thrown `JSON.parse` exception, `.ok (some reason)` the
first denial, `.ok none` all passed. -/
def gateToolCalls (evalTool : ToolGate) (parse : JsJsonParse) :
    List ProxyToolCall → Except String (Option String)
  | [] => .ok none
  | tc :: rest =>
    if tc.ty = "function" then
      match parse tc.arguments with
      | .error e => .error e
      | .ok toolInput =>
        if (evalTool tc.name toolInput).isAllowed then
          gateToolCalls evalTool parse rest
        else
          .ok (some (evalTool tc.name toolInput).denyReason)
    else
      gateToolCalls evalTool parse rest

/-- The non-streaming egress phase of the chat-completions handler: gate
the tool calls; on the first denial reply 403 `tool_invocation_blocked`
without persisting; on a thrown parse error fall into the route's catch
(500 `api_error`, since a `SyntaxError` carries no `status`); otherwise
persist the assistant message and return the upstream response verbatim. -/
def nonStreamingEgress (evalTool : ToolGate) (parse : JsJsonParse)
    (response : ChatResponse) : EgressResult :=
  match gateToolCalls evalTool parse response.firstChoiceMessage.tool_calls with
  | .error e =>
    { persisted := [], outcome := .errorResponse 500 "api_error" e }
  | .ok (some reason) =>
    { persisted := [],
      outcome := .errorResponse 403 "tool_invocation_blocked" reason }
  | .ok none =>
    { persisted := [response.firstChoiceMessage], outcome := .sent response }

/-- Does this tool call pass the gate without throwing? -/
def passesGate (evalTool : ToolGate) (parse : JsJsonParse) (tc : ProxyToolCall) : Bool :=
  if tc.ty = "function" then
    match parse tc.arguments with
    | .ok toolInput => (evalTool tc.name toolInput).isAllowed
    | .error _ => false
  else true

/-- A passing run of tool calls does not affect the gate's verdict. -/
lemma gateToolCalls_append_passing (evalTool : ToolGate) (parse : JsJsonParse) :
    ∀ (earlier rest : List ProxyToolCall),
      earlier.all (passesGate evalTool parse) = true →
      gateToolCalls evalTool parse (earlier ++ rest) =
        gateToolCalls evalTool parse rest
  | [], _, _ => rfl
  | tc :: earlier, rest, h => by
    rw [List.all_cons, Bool.and_eq_true] at h
    obtain ⟨h1, h2⟩ := h
    rw [List.cons_append]
    unfold passesGate at h1
    by_cases hty : tc.ty = "function"
    · cases hp : parse tc.arguments with
      | error e =>
        rw [if_pos hty, hp] at h1
        simp at h1
      | ok toolInput =>
        rw [if_pos hty, hp] at h1
        have h1' : (evalTool tc.name toolInput).isAllowed = true := h1
        simp only [gateToolCalls, hty, if_true, hp, h1']
        exact gateToolCalls_append_passing evalTool parse earlier rest h2
    · simp only [gateToolCalls, hty, if_false]
      exact gateToolCalls_append_passing evalTool parse earlier rest h2

/-- C1: in the non-streaming egress, function tool calls are gated in list
order.  If every tool call passes, the assistant message is persisted and
the upstream response is sent verbatim; at the first tool call the
evaluator denies (all earlier ones passing), the handler replies 403 with
`type = "tool_invocation_blocked"` and the evaluator's deny reason, and
persists nothing — regardless of the tool calls after it. -/
theorem c1_nonstreaming_tool_call_gate (evalTool : ToolGate) (parse : JsJsonParse)
    (response : ChatResponse) :
    (response.firstChoiceMessage.tool_calls.all (passesGate evalTool parse) = true →
      nonStreamingEgress evalTool parse response =
        { persisted := [response.firstChoiceMessage], outcome := .sent response })
    ∧ (∀ (earlier after : List ProxyToolCall) (tc : ProxyToolCall) (toolInput : Json),
        response.firstChoiceMessage.tool_calls = earlier ++ tc :: after →
        earlier.all (passesGate evalTool parse) = true →
        tc.ty = "function" →
        parse tc.arguments = .ok toolInput →
        (evalTool tc.name toolInput).isAllowed = false →
        nonStreamingEgress evalTool parse response =
          { persisted := [],
            outcome := .errorResponse 403 "tool_invocation_blocked"
              (evalTool tc.name toolInput).denyReason }) := by
  constructor
  · intro hall
    unfold nonStreamingEgress
    rw [show response.firstChoiceMessage.tool_calls =
          response.firstChoiceMessage.tool_calls ++ [] by simp,
        gateToolCalls_append_passing evalTool parse _ [] hall]
    rfl
  · intro earlier after tc toolInput hsplit hpass hty hparse hdeny
    unfold nonStreamingEgress
    rw [hsplit, gateToolCalls_append_passing evalTool parse earlier (tc :: after) hpass]
    simp [gateToolCalls, hty, hparse, hdeny]

/-- Witness for C1: a response with one passing and then one denied tool
call yields the 403 `tool_invocation_blocked` outcome with the deny
reason, persisting nothing. -/
theorem c1_nonstreaming_tool_call_gate_witness :
    nonStreamingEgress
      (fun name _ => if name = "sendEmail"
        then { isAllowed := false, denyReason := "no emails" }
        else { isAllowed := true, denyReason := "" })
      (fun _ => .ok (.obj []))
      { firstChoiceMessage :=
          { tool_calls :=
              [{ ty := "function", name := "readFile", arguments := "\x7b\x7d" },
               { ty := "function", name := "sendEmail", arguments := "\x7b\x7d" }] },
        restOfBody := .null } =
      { persisted := [],
        outcome := .errorResponse 403 "tool_invocation_blocked" "no emails" } := by
  have h := (c1_nonstreaming_tool_call_gate
    (fun name _ => if name = "sendEmail"
      then { isAllowed := false, denyReason := "no emails" }
      else { isAllowed := true, denyReason := "" })
    (fun _ => .ok (.obj []))
    { firstChoiceMessage :=
        { tool_calls :=
            [{ ty := "function", name := "readFile", arguments := "\x7b\x7d" },
             { ty := "function", name := "sendEmail", arguments := "\x7b\x7d" }] },
      restOfBody := .null }).2
    [{ ty := "function", name := "readFile", arguments := "\x7b\x7d" }]
    []
    { ty := "function", name := "sendEmail", arguments := "\x7b\x7d" }
    (.obj []) rfl rfl rfl rfl rfl
  exact h

/-- Counterexample to C7.  A function tool call whose `arguments` string
is not valid JSON makes the bare `JSON.parse` inside the egress loop
throw; the route's catch-all turns that into a 500 `api_error` response
carrying the `SyntaxError` message.  The handler does not deny the tool
call, and no outcome with reason "unparseable tool arguments" is
produced. -/
theorem c7_unparseable_arguments_counterexample :
    nonStreamingEgress
      (fun _ _ => { isAllowed := true, denyReason := "" })
      (fun s => if s = "\x7b" then .error "Unexpected end of JSON input" else .ok .null)
      { firstChoiceMessage :=
          { tool_calls := [{ ty := "function", name := "sendEmail", arguments := "\x7b" }] },
        restOfBody := .null } =
      { persisted := [],
        outcome := .errorResponse 500 "api_error" "Unexpected end of JSON input" }
    ∧ (HttpOutcome.errorResponse 500 "api_error" "Unexpected end of JSON input" ≠
        HttpOutcome.errorResponse 403 "tool_invocation_blocked" "unparseable tool arguments") := by
  refine ⟨rfl, ?_⟩
  intro h
  cases h

/-- C7 amended: when the first function tool call whose turn it is to be
gated has arguments that fail to JSON-parse, the egress phase neither
denies the call nor persists the assistant message — the thrown parse
error reaches the route's catch-all and the handler replies 500 with
`type = "api_error"` and the error's message. -/
theorem c7_unparseable_arguments_api_error (evalTool : ToolGate) (parse : JsJsonParse)
    (response : ChatResponse) (earlier after : List ProxyToolCall)
    (tc : ProxyToolCall) (e : String)
    (hsplit : response.firstChoiceMessage.tool_calls = earlier ++ tc :: after)
    (hpass : earlier.all (passesGate evalTool parse) = true)
    (hty : tc.ty = "function")
    (hparse : parse tc.arguments = .error e) :
    nonStreamingEgress evalTool parse response =
      { persisted := [], outcome := .errorResponse 500 "api_error" e } := by
  unfold nonStreamingEgress
  rw [hsplit, gateToolCalls_append_passing evalTool parse earlier (tc :: after) hpass]
  simp [gateToolCalls, hty, hparse]

/-- Witness for the amended C7 at a concrete malformed arguments string. -/
theorem c7_unparseable_arguments_api_error_witness :
    nonStreamingEgress
      (fun _ _ => { isAllowed := true, denyReason := "" })
      (fun s => if s = "\x7b" then .error "Unexpected end of JSON input" else .ok .null)
      { firstChoiceMessage :=
          { tool_calls := [{ ty := "function", name := "readFile", arguments := "\x7b" }] },
        restOfBody := .null } =
      { persisted := [],
        outcome := .errorResponse 500 "api_error" "Unexpected end of JSON input" } :=
  c7_unparseable_arguments_api_error
    (fun _ _ => { isAllowed := true, denyReason := "" })
    (fun s => if s = "\x7b" then .error "Unexpected end of JSON input" else .ok .null)
    { firstChoiceMessage :=
        { tool_calls := [{ ty := "function", name := "readFile", arguments := "\x7b" }] },
      restOfBody := .null }
    [] [] { ty := "function", name := "readFile", arguments := "\x7b" }
    "Unexpected end of JSON input" rfl rfl rfl rfl

/-! ## Streaming egress

The streaming branch of the handler relays every upstream chunk as a
`data: <json>` server-sent event and terminates with `data: [DONE]`;
those writes are the branch's entire observable behaviour. -/

/-- The sequence of `reply.raw.write` calls performed by the streaming
branch for a given sequence of upstream chunks. -/
def streamingWrites (chunks : List Json) : List String :=
  chunks.map (fun c => "data: " ++ jsonStringify c ++ "\n\n") ++ ["data: [DONE]\n\n"]

/-- A concrete streamed chunk whose final delta carries a function tool
call that the tool-invocation evaluator would deny (`sendEmail` to a
`@grafana.com` address, the policy of the spec's first scenario). -/
def blockedChunk : Json :=
  .obj [("choices", .arr [.obj [("delta", .obj [("tool_calls", .arr [.obj
    [("type", .str "function"),
     ("function", .obj [("name", .str "sendEmail"),
                        ("arguments", .str "to x@grafana.com")])]])])]])]

/-- Counterexample to C4.  Even for a stream whose reassembled tool call
the evaluator denies (first conjunct), the streaming branch emits exactly
the relayed chunk followed by `data: [DONE]` — two writes, neither of
which contains the substring "error".  No tool-invocation gate runs after
the stream and no SSE error event precedes `[DONE]`, so the blocked tool
call is delivered to the client without any error event. -/
theorem c4_streaming_no_gate_counterexample :
    evaluateForAgent (fun _ => .ok (fun _ => false))
      [{ argumentName := "to", operator := .endsWith, value := "@grafana.com",
         action := .block, description := "Cannot send emails to @grafana.com domain",
         blockPrompt := "" }]
      (.obj [("to", .str "x@grafana.com")]) =
      .ok { isAllowed := false,
            denyReason := "Policy violation: Cannot send emails to @grafana.com domain" }
    ∧ streamingWrites [blockedChunk] =
        ["data: " ++ jsonStringify blockedChunk ++ "\n\n", "data: [DONE]\n\n"]
    ∧ (streamingWrites [blockedChunk]).length = 2
    ∧ strIncludes ("data: " ++ jsonStringify blockedChunk ++ "\n\n") "error" = false
    ∧ strIncludes "data: [DONE]\n\n" "error" = false := by
  refine ⟨rfl, rfl, rfl, by decide, by decide⟩

/-- C4 amended: in streaming mode the upstream chunks are relayed as
`data: <json>` events terminated by `data: [DONE]`, and nothing else: the
writes are exactly one relay event per chunk plus the terminator, so no
tool-invocation gate runs after the stream and no error event is ever
emitted. -/
theorem c4_streaming_relay_only (chunks : List Json) :
    (streamingWrites chunks).length = chunks.length + 1
    ∧ (streamingWrites chunks).getLast? = some "data: [DONE]\n\n"
    ∧ (∀ i, i < chunks.length →
        (streamingWrites chunks)[i]? =
          (chunks[i]?).map (fun c => "data: " ++ jsonStringify c ++ "\n\n")) := by
  refine ⟨by simp [streamingWrites], ?_, ?_⟩
  · simp [streamingWrites]
  · intro i hi
    unfold streamingWrites
    rw [List.getElem?_append]
    simp [hi]

/-- Witness for the amended C4 at a one-chunk stream. -/
theorem c4_streaming_relay_only_witness :
    (streamingWrites [Json.null])[0]? = some "data: null\n\n" := by
  have h := (c4_streaming_relay_only [Json.null]).2.2 0 (by decide)
  simpa using h

/-! ## Anthropic-shaped messages

`evaluateIfContextIsTrusted` and the dual-LLM sub-agent walk Anthropic
`messages`: each message has a `role` and either string content or an
array of content blocks.  A block is modelled as a record carrying every
field the pipeline reads; fields that a given block type does not use
default to empty. -/

/-- One Anthropic content block (`text`, `tool_use`, `tool_result`, ...). -/
structure ContentBlock where
  type : String
  id : String := ""
  name : String := ""
  tool_use_id : String := ""
  content : Json := .null
  text : String := ""
  deriving Repr, BEq

/-- Anthropic message content: a plain string or an array of blocks. -/
inductive MessageContent where
  | str (s : String)
  | blocks (bs : List ContentBlock)
  deriving Repr, BEq

/-- One Anthropic message. -/
structure AMessage where
  role : String
  content : MessageContent
  deriving Repr, BEq

/-- Inner loop of `extractToolNameFromMessages`: scan one assistant
message's blocks for a `tool_use` with the wanted id. -/
def findToolUseName (toolUseId : String) : List ContentBlock → Option String
  | [] => none
  | b :: rest =>
    if b.type = "tool_use" && b.id = toolUseId then some b.name
    else findToolUseName toolUseId rest

/-- Backwards walk of `extractToolNameFromMessages` (the input list is
already reversed). -/
def extractToolNameGo (toolUseId : String) : List AMessage → Option String
  | [] => none
  | m :: rest =>
    if m.role = "assistant" then
      match m.content with
      | .blocks (b :: bs) =>
        match findToolUseName toolUseId (b :: bs) with
        | some n => some n
        | none => extractToolNameGo toolUseId rest
      | _ => extractToolNameGo toolUseId rest
    else extractToolNameGo toolUseId rest

/-- `extractToolNameFromMessages` (trusted-data/anthropic.ts): find the
most recent assistant message carrying a `tool_use` block with this id and
return that block's tool name. -/
def extractToolNameFromMessages (messages : List AMessage) (toolUseId : String) :
    Option String :=
  extractToolNameGo toolUseId messages.reverse

/-- Backwards walk of `DualLlmSubagent.extractUserRequestFromAnthropic`
(the input list is already reversed): the last user message that is a
plain string or contains a text block. -/
def extractUserRequestGo : List AMessage → String
  | [] => "process this data"
  | m :: rest =>
    if m.role = "user" then
      match m.content with
      | .str s => s
      | .blocks bs =>
        match bs.find? (fun b => b.type = "text") with
        | some b => b.text
        | none => extractUserRequestGo rest
    else extractUserRequestGo rest

/-- `DualLlmSubagent.extractUserRequestFromAnthropic`. -/
def extractUserRequestFromAnthropic (messages : List AMessage) : String :=
  extractUserRequestGo messages.reverse

/-- A `tool_result` block's `content`, JSON-parsed when it is a string
that parses, else used as-is (the source wraps `JSON.parse` in
try/catch here). -/
def parseContentValue (parse : JsJsonParse) (c : Json) : Json :=
  match c with
  | .str s =>
    match parse s with
    | .ok v => v
    | .error _ => .str s
  | c => c

/-- Inner loop of `extractToolResultFromAnthropic`: first `tool_result`
block with the wanted `tool_use_id`. -/
def findToolResultBlock (toolUseId : String) : List ContentBlock → Option ContentBlock
  | [] => none
  | b :: rest =>
    if b.type = "tool_result" && b.tool_use_id = toolUseId then some b
    else findToolResultBlock toolUseId rest

/-- Forwards walk of `DualLlmSubagent.extractToolResultFromAnthropic`;
`none` models the `Tool result not found` throw. -/
def extractToolResultGo (parse : JsJsonParse) (toolUseId : String) :
    List AMessage → Option Json
  | [] => none
  | m :: rest =>
    if m.role = "user" then
      match m.content with
      | .blocks (b :: bs) =>
        match findToolResultBlock toolUseId (b :: bs) with
        | some blk => some (parseContentValue parse blk.content)
        | none => extractToolResultGo parse toolUseId rest
      | _ => extractToolResultGo parse toolUseId rest
    else extractToolResultGo parse toolUseId rest

/-- `DualLlmSubagent.extractToolResultFromAnthropic`. -/
def extractToolResultFromAnthropic (parse : JsJsonParse) (messages : List AMessage)
    (toolUseId : String) : Option Json :=
  extractToolResultGo parse toolUseId messages

/-! ## Quarantined-agent answer validation (`DualLlmSubagent.answerQuestion`) -/

/-- The `answer` field of the quarantined agent's structured reply, when
the reply is an object whose `answer` is a JSON number
(`typeof parsed.answer === "number"`); `none` otherwise (reply falsy,
non-object, field absent or non-numeric). -/
def answerNumber (reply : Json) : Option Rat :=
  match reply with
  | .obj fields =>
    match fields.lookup "answer" with
    | some (.num q) => some q
    | _ => none
  | _ => none

/-- The code-level validation and bounds clamp of
`DualLlmSubagent.answerQuestion`: a missing or non-numeric answer picks
the last option; a numeric answer is `Math.floor`ed, and a floored value
outside `[0, options.length)` picks the last option. -/
def answerQuestion (reply : Json) (options : List String) : Int :=
  match answerNumber reply with
  | none => (options.length : Int) - 1
  | some q =>
    let answerIndex : Int := q.floor
    if answerIndex < 0 ∨ (options.length : Int) ≤ answerIndex then
      (options.length : Int) - 1
    else answerIndex

/-- The rational one half, for exercising a non-integral answer. -/
def halfRat : Rat :=
  { num := 1, den := 2, den_nz := by decide, reduced := Nat.coprime_one_left 2 }

/-- Counterexample to C9.  A reply whose `answer` is the non-integral
number 0.5 passes the `typeof ... === "number"` check, is floored to 0 and
selects index 0 — not the last option (index 2) that the claim requires
for a non-integral answer. -/
theorem c9_nonintegral_answer_counterexample :
    answerQuestion (.obj [("answer", .num halfRat)]) ["a", "b", "c"] = 0
    ∧ (0 : Int) ≠ 2 := by
  refine ⟨rfl, by decide⟩

/-- C9 amended: for options of size n ≥ 1 the selected index is always in
`[0, n)`; an absent or non-numeric answer picks the last option; a numeric
answer is floored, picks the last option when the floor is outside
`[0, n)`, and is used as-is otherwise (so a non-integral in-range answer
selects its floor, not the last option). -/
theorem c9_answer_clamp (reply : Json) (options : List String)
    (h1 : 1 ≤ options.length) :
    (0 ≤ answerQuestion reply options
      ∧ answerQuestion reply options < (options.length : Int))
    ∧ (answerNumber reply = none →
        answerQuestion reply options = (options.length : Int) - 1)
    ∧ (∀ q, answerNumber reply = some q →
        (q.floor < 0 ∨ (options.length : Int) ≤ q.floor) →
        answerQuestion reply options = (options.length : Int) - 1)
    ∧ (∀ q, answerNumber reply = some q →
        0 ≤ q.floor → q.floor < (options.length : Int) →
        answerQuestion reply options = q.floor) := by
  have hn : (1 : Int) ≤ (options.length : Int) := by exact_mod_cast h1
  refine ⟨?_, ?_, ?_, ?_⟩
  · unfold answerQuestion
    cases h : answerNumber reply with
    | none => simp only []; omega
    | some q =>
      simp only []
      split
      · omega
      · next hout => push_neg at hout; omega
  · intro h
    simp [answerQuestion, h]
  · intro q hq hout
    simp only [answerQuestion, hq]
    rw [if_pos hout]
  · intro q hq h0 hlt
    simp only [answerQuestion, hq]
    rw [if_neg (by omega)]

/-- Witness for the amended C9 at the spec's bounds-clamp scenario: three
options and an answer of 9 select index 2. -/
theorem c9_answer_clamp_witness :
    answerQuestion (.obj [("answer", .num 9)]) ["a", "b", "c"] = 2 := by
  have h := (c9_answer_clamp (.obj [("answer", .num 9)]) ["a", "b", "c"]
    (by decide)).2.2.1 9 rfl (by right; decide)
  simpa using h

/-! ## Dual-LLM sub-agent (`DualLlmSubagent`) -/

/-- JavaScript `s.replace(pattern, replacement)` with a string pattern:
replace the first occurrence only. -/
def replaceFirstAux (pat repl : List Char) : List Char → List Char
  | [] => if pat.isEmpty then repl else []
  | c :: rest =>
    if pat.isPrefixOf (c :: rest) then repl ++ (c :: rest).drop pat.length
    else c :: replaceFirstAux pat repl rest

/-- String wrapper for `replaceFirstAux`. -/
def jsReplaceFirst (s pat repl : String) : String :=
  String.mk (replaceFirstAux pat.data repl.data s.data)

mutual

/-- `JSON.stringify(v, null, 2)`: two-space pretty printing, used for the
`{{toolResultData}}` substitution in the quarantined-agent prompt. -/
def ppJson (ind : String) : Json → String
  | .null => "null"
  | .bool true => "true"
  | .bool false => "false"
  | .num q => numToString q
  | .str s => "\"" ++ escapeJsonString s ++ "\""
  | .arr [] => "[]"
  | .arr (e :: es) =>
    "[\n" ++ String.intercalate ",\n" (ppList (ind ++ "  ") (e :: es)) ++
      "\n" ++ ind ++ "]"
  | .obj [] => "\x7b\x7d"
  | .obj (f :: fs) =>
    "\x7b\n" ++ String.intercalate ",\n" (ppFields (ind ++ "  ") (f :: fs)) ++
      "\n" ++ ind ++ "\x7d"

/-- Pretty-print the elements of a JSON array. -/
def ppList (ind : String) : List Json → List String
  | [] => []
  | j :: rest => (ind ++ ppJson ind j) :: ppList ind rest

/-- Pretty-print the fields of a JSON object. -/
def ppFields (ind : String) : List (String × Json) → List String
  | [] => []
  | (k, v) :: rest =>
    (ind ++ "\"" ++ escapeJsonString k ++ "\": " ++ ppJson ind v) :: ppFields ind rest

end

/-- Top-level `JSON.stringify(v, null, 2)`. -/
def jsonStringifyPretty (j : Json) : String :=
  ppJson "" j

/-- One turn of a dual-LLM conversation. -/
structure DualLlmMessage where
  role : String
  content : String
  deriving Repr, DecidableEq

/-- The `DualLlmConfig` row (prompt templates and round limit). -/
structure DualLlmConfig where
  mainAgentPrompt : String
  quarantinedAgentPrompt : String
  summaryPrompt : String
  maxRounds : Nat
  deriving Repr, DecidableEq

/-- The sub-agent's external collaborators: the LLM client's `chat` and
`chatWithSchema` calls (upstream services), the regex-based
QUESTION/OPTIONS parsing of the privileged reply (host regex engine,
returning the question and the cleaned, non-empty option lines), and
`JSON.parse`. -/
structure LlmOracle where
  chat : List DualLlmMessage → String
  chatWithSchema : String → Json
  parseQuestion : String → Option (String × List String)
  jsonParse : JsJsonParse

/-- One `DualLlmResult` row. -/
structure DualLlmResultRow where
  agentId : String
  toolCallId : String
  result : String
  deriving Repr, DecidableEq

/-- The mutable state the sanitisation pipeline touches: the
`DualLlmResult` table and the number of upstream LLM calls made. -/
structure SanState where
  dualLlmResults : List DualLlmResultRow
  llmCalls : Nat
  deriving Repr, DecidableEq

/-- Modelled from the spec: `DualLlmResultModel.findByToolCallId` is not
under `src/` (only its callers are).  Per §3 the table is keyed by
`toolCallId`; the lookup returns the row's `result` when present. -/
def findByToolCallId (rows : List DualLlmResultRow) (toolCallId : String) :
    Option String :=
  (rows.find? (fun r => r.toolCallId = toolCallId)).map (fun r => r.result)

/-- Modelled from the spec: `DualLlmResultModel.create` is not under
`src/`.  Per §3 `DualLlmResult` is unique per `toolCallId` (its primary
key) and per §5 the insert uses upsert semantics on that key. -/
def dualLlmResultCreate (rows : List DualLlmResultRow)
    (agentId toolCallId result : String) : List DualLlmResultRow :=
  if rows.any (fun r => r.toolCallId = toolCallId) then
    rows.map (fun r =>
      if r.toolCallId = toolCallId then
        { agentId := agentId, toolCallId := toolCallId, result := result }
      else r)
  else
    rows ++ [{ agentId := agentId, toolCallId := toolCallId, result := result }]

/-- JavaScript `options[answerIndex]` interpolated into a template:
out-of-range produces the string `"undefined"`. -/
def jsIndex (options : List String) (i : Int) : String :=
  if i < 0 then "undefined"
  else
    match options[i.toNat]? with
    | some o => o
    | none => "undefined"

/-- The Q&A loop of `DualLlmSubagent.processWithMainAgent`: in each round
the privileged agent is asked for a question (`chat`, one LLM call); a
reply containing `DONE` or failing to parse ends the loop; otherwise the
quarantined agent answers (`chatWithSchema`, one LLM call) and the
validated answer is appended as a user turn. -/
def qaLoop (o : LlmOracle) (config : DualLlmConfig) (toolResultStr : String) :
    Nat → List DualLlmMessage → Nat → List DualLlmMessage × Nat
  | 0, conv, calls => (conv, calls)
  | fuel + 1, conv, calls =>
    let response := o.chat conv
    let conv1 := conv ++ [{ role := "assistant", content := response }]
    let calls1 := calls + 1
    if response = "DONE" ∨ strIncludes response "DONE" = true then (conv1, calls1)
    else
      match o.parseQuestion response with
      | none => (conv1, calls1)
      | some (question, options) =>
        let optionsText := String.intercalate "\n"
          (options.enum.map (fun p => toString p.1 ++ ": " ++ p.2))
        let quarantinedPrompt :=
          jsReplaceFirst (jsReplaceFirst (jsReplaceFirst (jsReplaceFirst
            config.quarantinedAgentPrompt
            "\x7b\x7btoolResultData\x7d\x7d" toolResultStr)
            "\x7b\x7bquestion\x7d\x7d" question)
            "\x7b\x7boptions\x7d\x7d" optionsText)
            "\x7b\x7bmaxIndex\x7d\x7d" (toString ((options.length : Int) - 1))
        let reply := o.chatWithSchema quarantinedPrompt
        let calls2 := calls1 + 1
        let answerIndex := answerQuestion reply options
        let selectedOption := jsIndex options answerIndex
        let conv2 := conv1 ++
          [{ role := "user",
             content := "Answer: " ++ toString answerIndex ++
               " (" ++ selectedOption ++ ")" }]
        qaLoop o config toolResultStr fuel conv2 calls2

/-- `DualLlmSubagent.processWithMainAgent`: seed the conversation with the
main-agent prompt, run the Q&A loop for up to `maxRounds` rounds,
summarise the conversation (one more LLM call) and store the summary as a
`DualLlmResult` row before returning it. -/
def processWithMainAgent (o : LlmOracle) (config : DualLlmConfig)
    (agentId toolCallId originalUserRequest : String) (toolResult : Json)
    (st : SanState) : String × SanState :=
  let mainAgentPrompt := jsReplaceFirst config.mainAgentPrompt
    "\x7b\x7boriginalUserRequest\x7d\x7d" originalUserRequest
  let seed : List DualLlmMessage := [{ role := "user", content := mainAgentPrompt }]
  let loopOut := qaLoop o config (jsonStringifyPretty toolResult)
    config.maxRounds seed st.llmCalls
  let qaText := String.intercalate "\n"
    ((loopOut.1.map (fun m => m.content)).filter (fun c => c.length > 0))
  let summary := o.chat
    [{ role := "user",
       content := jsReplaceFirst config.summaryPrompt "\x7b\x7bqaText\x7d\x7d" qaText }]
  (summary,
   { dualLlmResults := dualLlmResultCreate st.dualLlmResults agentId toolCallId summary,
     llmCalls := loopOut.2 + 1 })

/-- The dual-LLM sanitisation step of `evaluateIfContextIsTrusted` (its
`shouldSanitizeWithDualLlm` branch): cache-first lookup of the
`DualLlmResult` row for the tool-use id; on a miss, construct the
sub-agent (`DualLlmSubagent.create` with anthropic params, whose tool
result extraction can throw, modelled by `.error`) and run
`processWithMainAgent`. -/
def sanitizeToolCall (o : LlmOracle) (config : DualLlmConfig) (agentId : String)
    (messages : List AMessage) (toolUseId : String) (st : SanState) :
    Except String (String × SanState) :=
  match findByToolCallId st.dualLlmResults toolUseId with
  | some cached => .ok (cached, st)
  | none =>
    match extractToolResultFromAnthropic o.jsonParse messages toolUseId with
    | none => .error ("Tool result not found for toolUseId: " ++ toolUseId)
    | some toolResult =>
      .ok (processWithMainAgent o config agentId toolUseId
        (extractUserRequestFromAnthropic messages) toolResult st)

/-- Number of `DualLlmResult` rows with the given tool-call id. -/
def countToolCallRows (rows : List DualLlmResultRow) (toolCallId : String) : Nat :=
  (rows.filter (fun r => r.toolCallId = toolCallId)).length

/-- Sanitise the same tool-call id N times in sequence, collecting the
returned result strings. -/
def sanitizeNTimes (o : LlmOracle) (config : DualLlmConfig) (agentId : String)
    (messages : List AMessage) (toolUseId : String) :
    Nat → SanState → Except String (List String × SanState)
  | 0, st => .ok ([], st)
  | n + 1, st =>
    match sanitizeToolCall o config agentId messages toolUseId st with
    | .error e => .error e
    | .ok (s, st1) =>
      match sanitizeNTimes o config agentId messages toolUseId n st1 with
      | .error e => .error e
      | .ok (rs, st2) => .ok (s :: rs, st2)

/-- A missing lookup means no row carries the id. -/
lemma findByToolCallId_none (rows : List DualLlmResultRow) (toolCallId : String)
    (h : findByToolCallId rows toolCallId = none) :
    ∀ r ∈ rows, ¬(r.toolCallId = toolCallId) := by
  intro r hr
  unfold findByToolCallId at h
  rw [Option.map_eq_none', List.find?_eq_none] at h
  simpa using h r hr

/-- Creating into a table with no row for the id appends exactly that row. -/
lemma dualLlmResultCreate_of_none (rows : List DualLlmResultRow)
    (agentId toolCallId result : String)
    (h : findByToolCallId rows toolCallId = none) :
    dualLlmResultCreate rows agentId toolCallId result =
      rows ++ [{ agentId := agentId, toolCallId := toolCallId, result := result }] := by
  unfold dualLlmResultCreate
  rw [if_neg]
  intro hany
  rw [List.any_eq_true] at hany
  obtain ⟨r, hr, hid⟩ := hany
  exact findByToolCallId_none rows toolCallId h r hr (by simpa using hid)

/-- After such a create, the lookup returns the new result. -/
lemma findByToolCallId_create (rows : List DualLlmResultRow)
    (agentId toolCallId result : String)
    (h : findByToolCallId rows toolCallId = none) :
    findByToolCallId
      (dualLlmResultCreate rows agentId toolCallId result) toolCallId =
      some result := by
  rw [dualLlmResultCreate_of_none rows agentId toolCallId result h]
  unfold findByToolCallId at h ⊢
  rw [Option.map_eq_none'] at h
  rw [List.find?_append, h]
  simp

/-- After such a create, exactly one row carries the id. -/
lemma countToolCallRows_create (rows : List DualLlmResultRow)
    (agentId toolCallId result : String)
    (h : findByToolCallId rows toolCallId = none) :
    countToolCallRows
      (dualLlmResultCreate rows agentId toolCallId result) toolCallId = 1 := by
  rw [dualLlmResultCreate_of_none rows agentId toolCallId result h]
  unfold countToolCallRows
  rw [List.filter_append, List.length_append]
  have hz : (rows.filter (fun r => decide (r.toolCallId = toolCallId))).length = 0 := by
    rw [List.length_eq_zero, List.filter_eq_nil_iff]
    intro r hr
    simpa using findByToolCallId_none rows toolCallId h r hr
  simp only [List.filter]
  rw [hz]
  simp

/-- Once one sanitisation pass is a fixpoint, every further pass returns
the same result and state. -/
lemma sanitizeNTimes_of_fixpoint (o : LlmOracle) (config : DualLlmConfig)
    (agentId : String) (messages : List AMessage) (toolUseId s : String)
    (st1 : SanState)
    (hfix : sanitizeToolCall o config agentId messages toolUseId st1 = .ok (s, st1)) :
    ∀ n, sanitizeNTimes o config agentId messages toolUseId n st1 =
      .ok (List.replicate n s, st1)
  | 0 => rfl
  | n + 1 => by
    unfold sanitizeNTimes
    rw [hfix]
    have hrec := sanitizeNTimes_of_fixpoint o config agentId messages toolUseId s st1 hfix n
    simp [hrec, List.replicate_succ]

/-- C5: sanitisation is idempotent per tool-call id.  When a
`DualLlmResult` row exists for the id, `sanitizeToolCall` returns the
cached result string unchanged and leaves the state untouched — in
particular `llmCalls` does not grow (zero LLM calls) and no row is
written.  When no row exists, a successful run leaves exactly one row for
the id, that row caches the returned summary, the run is a fixpoint, and
sanitising N ≥ 1 times returns the same result string every time while
still producing exactly one row. -/
theorem c5_sanitisation_idempotent (o : LlmOracle) (config : DualLlmConfig)
    (agentId : String) (messages : List AMessage) (toolUseId : String)
    (st : SanState) :
    (∀ cached, findByToolCallId st.dualLlmResults toolUseId = some cached →
      sanitizeToolCall o config agentId messages toolUseId st = .ok (cached, st))
    ∧ (findByToolCallId st.dualLlmResults toolUseId = none →
      ∀ s st1, sanitizeToolCall o config agentId messages toolUseId st = .ok (s, st1) →
        countToolCallRows st1.dualLlmResults toolUseId = 1
        ∧ findByToolCallId st1.dualLlmResults toolUseId = some s
        ∧ sanitizeToolCall o config agentId messages toolUseId st1 = .ok (s, st1)
        ∧ (∀ n, sanitizeNTimes o config agentId messages toolUseId (n + 1) st =
            .ok (List.replicate (n + 1) s, st1))) := by
  constructor
  · intro cached h
    unfold sanitizeToolCall
    rw [h]
  · intro hnone s st1 hrun
    unfold sanitizeToolCall at hrun
    rw [hnone] at hrun
    cases hx : extractToolResultFromAnthropic o.jsonParse messages toolUseId with
    | none => rw [hx] at hrun; cases hrun
    | some tr =>
      rw [hx] at hrun
      have hp : processWithMainAgent o config agentId toolUseId
          (extractUserRequestFromAnthropic messages) tr st = (s, st1) :=
        Except.ok.inj hrun
      have hrows : st1.dualLlmResults =
          dualLlmResultCreate st.dualLlmResults agentId toolUseId s := by
        have h2 := congrArg (fun p => p.2.dualLlmResults) hp
        have h1 := congrArg (fun p => p.1) hp
        simp only [] at h1 h2
        rw [← h2, ← h1]
        rfl
      have hfind : findByToolCallId st1.dualLlmResults toolUseId = some s := by
        rw [hrows]
        exact findByToolCallId_create st.dualLlmResults agentId toolUseId s hnone
      have hfix : sanitizeToolCall o config agentId messages toolUseId st1 =
          .ok (s, st1) := by
        unfold sanitizeToolCall
        rw [hfind]
      have hrun' : sanitizeToolCall o config agentId messages toolUseId st =
          .ok (s, st1) := by
        unfold sanitizeToolCall
        rw [hnone, hx]
        exact hrun
      refine ⟨?_, hfind, hfix, ?_⟩
      · rw [hrows]
        exact countToolCallRows_create st.dualLlmResults agentId toolUseId s hnone
      · intro n
        unfold sanitizeNTimes
        rw [hrun']
        have hrec := sanitizeNTimes_of_fixpoint o config agentId messages toolUseId s st1 hfix n
        simp [hrec, List.replicate_succ]

/-- A concrete oracle whose privileged agent answers `DONE` immediately. -/
def doneOracle : LlmOracle :=
  { chat := fun _ => "DONE",
    chatWithSchema := fun _ => .null,
    parseQuestion := fun _ => none,
    jsonParse := fun _ => .error "not JSON" }

/-- A concrete dual-LLM configuration. -/
def dualConfigFixture : DualLlmConfig :=
  { mainAgentPrompt := "m", quarantinedAgentPrompt := "q",
    summaryPrompt := "sum", maxRounds := 1 }

/-- A user message carrying one tool result with id `tc1`. -/
def toolResultFixtureMsg : AMessage :=
  { role := "user",
    content := .blocks
      [{ type := "tool_result", tool_use_id := "tc1", content := .str "data" }] }

/-- Witness for C5: sanitising `tc1` from an empty table yields the
summary `"DONE"` after two LLM calls and exactly one row; re-sanitising is
a fixpoint, returning the cached string with the state (and so the LLM
call count) unchanged. -/
theorem c5_sanitisation_idempotent_witness :
    countToolCallRows
      [{ agentId := "ag", toolCallId := "tc1", result := "DONE" }] "tc1" = 1
    ∧ sanitizeToolCall doneOracle dualConfigFixture "ag" [toolResultFixtureMsg] "tc1"
        { dualLlmResults := [{ agentId := "ag", toolCallId := "tc1", result := "DONE" }],
          llmCalls := 2 } =
        .ok ("DONE",
          { dualLlmResults := [{ agentId := "ag", toolCallId := "tc1", result := "DONE" }],
            llmCalls := 2 }) := by
  have h := (c5_sanitisation_idempotent doneOracle dualConfigFixture "ag"
    [toolResultFixtureMsg] "tc1" { dualLlmResults := [], llmCalls := 0 }).2 rfl
    "DONE"
    { dualLlmResults := [{ agentId := "ag", toolCallId := "tc1", result := "DONE" }],
      llmCalls := 2 }
    (by rfl)
  exact ⟨h.1, h.2.2.1⟩

/-! ## Trusted-data pipeline (`evaluateIfContextIsTrusted`) -/

/-- The result of `TrustedDataPolicyModel.evaluate`.  An empty `reason`
models an absent one (falsy under the source's `reason ? ... : ""`). -/
structure TrustedEval where
  isTrusted : Bool
  isBlocked : Bool
  shouldSanitizeWithDualLlm : Bool
  reason : String
  deriving Repr, DecidableEq

/-- `TrustedDataPolicyModel.evaluate (agentId, toolName, toolResult)`;
the model itself is not under `src/`, so it is a parameter of the
pipeline. -/
def TrustedPolicyEval : Type := String → String → Json → TrustedEval

/-- The guard of the pipeline's rewrite step: a user message with
non-empty array content, split into head block and tail. -/
def userBlocks? (m : AMessage) : Option (ContentBlock × List ContentBlock) :=
  if m.role = "user" then
    match m.content with
    | .blocks (b :: bs) => some (b, bs)
    | _ => none
  else none

/-- The inner `for (const contentBlock of message.content)` loop of
`evaluateIfContextIsTrusted`: rewrite the `tool_result` blocks of one user
message, threading the untrusted flag and the sanitisation state.
A `tool_result` whose tool name resolves is evaluated against the
trusted-data policies: blocked results are replaced by a block notice,
untrusted ones are replaced by the (cache-first) dual-LLM summary, trusted
ones pass through; a `tool_result` whose tool name cannot be resolved
marks the context untrusted and passes through; all other blocks pass
through. -/
def processBlocks (o : LlmOracle) (config : DualLlmConfig)
    (evalPolicy : TrustedPolicyEval) (agentId : String)
    (allMessages : List AMessage) :
    List ContentBlock → Bool → SanState →
    Except String (List ContentBlock × Bool × SanState)
  | [], untrusted, st => .ok ([], untrusted, st)
  | b :: rest, untrusted, st =>
    if b.type = "tool_result" then
      let toolResult := parseContentValue o.jsonParse b.content
      match extractToolNameFromMessages allMessages b.tool_use_id with
      | some toolName =>
        let ev := evalPolicy agentId toolName toolResult
        let untrusted1 := untrusted || !ev.isTrusted
        if ev.isBlocked then
          match processBlocks o config evalPolicy agentId allMessages rest untrusted1 st with
          | .error e => .error e
          | .ok (nbs, u2, st2) =>
            .ok ({ b with content := .str ("[Content blocked by policy" ++
                    (if ev.reason = "" then "" else ": " ++ ev.reason) ++ "]") } :: nbs,
                 u2, st2)
        else if ev.shouldSanitizeWithDualLlm then
          match sanitizeToolCall o config agentId allMessages b.tool_use_id st with
          | .error e => .error e
          | .ok (newContent, st1) =>
            match processBlocks o config evalPolicy agentId allMessages rest untrusted1 st1 with
            | .error e => .error e
            | .ok (nbs, u2, st2) =>
              .ok ({ b with content := .str newContent } :: nbs, u2, st2)
        else
          match processBlocks o config evalPolicy agentId allMessages rest untrusted1 st with
          | .error e => .error e
          | .ok (nbs, u2, st2) => .ok (b :: nbs, u2, st2)
      | none =>
        match processBlocks o config evalPolicy agentId allMessages rest true st with
        | .error e => .error e
        | .ok (nbs, u2, st2) => .ok (b :: nbs, u2, st2)
    else
      match processBlocks o config evalPolicy agentId allMessages rest untrusted st with
      | .error e => .error e
      | .ok (nbs, u2, st2) => .ok (b :: nbs, u2, st2)

/-- The outer message loop of `evaluateIfContextIsTrusted`: user messages
with non-empty array content get their blocks rewritten; every other
message passes through unchanged. -/
def processMessages (o : LlmOracle) (config : DualLlmConfig)
    (evalPolicy : TrustedPolicyEval) (agentId : String)
    (allMessages : List AMessage) :
    List AMessage → Bool → SanState →
    Except String (List AMessage × Bool × SanState)
  | [], untrusted, st => .ok ([], untrusted, st)
  | m :: rest, untrusted, st =>
    match userBlocks? m with
    | some (b, bs) =>
      match processBlocks o config evalPolicy agentId allMessages (b :: bs) untrusted st with
      | .error e => .error e
      | .ok (nbs, u1, st1) =>
        match processMessages o config evalPolicy agentId allMessages rest u1 st1 with
        | .error e => .error e
        | .ok (nms, u2, st2) =>
          .ok ({ m with content := .blocks nbs } :: nms, u2, st2)
    | none =>
      match processMessages o config evalPolicy agentId allMessages rest untrusted st with
      | .error e => .error e
      | .ok (nms, u2, st2) => .ok (m :: nms, u2, st2)

/-- `evaluateIfContextIsTrusted (messages, agentId, apiKey)`: rewrite the
messages and report `contextIsTrusted = !hasUntrustedData` together with
the final sanitisation state. -/
def evaluateIfContextIsTrusted (o : LlmOracle) (config : DualLlmConfig)
    (evalPolicy : TrustedPolicyEval) (messages : List AMessage)
    (agentId : String) (st : SanState) :
    Except String (List AMessage × Bool × SanState) :=
  match processMessages o config evalPolicy agentId messages messages false st with
  | .error e => .error e
  | .ok (out, hasUntrusted, st1) => .ok (out, !hasUntrusted, st1)

/-- The frame relation on content blocks: every field except `content` is
preserved, and a block that is not a `tool_result` is fully unchanged. -/
def blockFrame (b nb : ContentBlock) : Prop :=
  nb.type = b.type ∧ nb.id = b.id ∧ nb.name = b.name ∧
  nb.tool_use_id = b.tool_use_id ∧ nb.text = b.text ∧
  (b.type ≠ "tool_result" → nb = b)

/-- The frame relation on messages: a message that is not a user message
with non-empty array content is unchanged; otherwise the role is
preserved and the blocks are pointwise `blockFrame`-related. -/
def messageFrame (m nm : AMessage) : Prop :=
  (userBlocks? m = none → nm = m) ∧
  nm.role = m.role ∧
  (match m.content, nm.content with
   | .blocks bs, .blocks nbs => List.Forall₂ blockFrame bs nbs
   | c, nc => nc = c)

/-- Every block is `blockFrame`-related to itself. -/
lemma blockFrame_refl (b : ContentBlock) : blockFrame b b :=
  ⟨rfl, rfl, rfl, rfl, rfl, fun _ => rfl⟩

/-- Every message is `messageFrame`-related to itself. -/
lemma messageFrame_refl (m : AMessage) : messageFrame m m := by
  refine ⟨fun _ => rfl, rfl, ?_⟩
  cases m.content with
  | str s => rfl
  | blocks bs => exact List.forall₂_same.mpr (fun b _ => blockFrame_refl b)

/-- Unpack a successful `userBlocks?`. -/
lemma userBlocks?_eq_some (m : AMessage) (b : ContentBlock) (bs : List ContentBlock)
    (h : userBlocks? m = some (b, bs)) :
    m.role = "user" ∧ m.content = .blocks (b :: bs) := by
  unfold userBlocks? at h
  split at h
  · split at h
    · next heq => cases h; exact ⟨by assumption, heq⟩
    · cases h
  · cases h

/-- A `tool_result` block is found by `findToolResultBlock` whenever it is
in the scanned list (possibly via an earlier block with the same id). -/
lemma findToolResultBlock_isSome (b : ContentBlock) :
    ∀ (bs : List ContentBlock), b ∈ bs → b.type = "tool_result" →
      (findToolResultBlock b.tool_use_id bs).isSome = true
  | [], hmem, _ => absurd hmem (List.not_mem_nil b)
  | c :: cs, hmem, hb => by
    unfold findToolResultBlock
    by_cases hc : c.type = "tool_result" ∧ c.tool_use_id = b.tool_use_id
    · rw [if_pos (by simp [hc.1, hc.2])]
      rfl
    · rw [if_neg (by simpa using fun h1 h2 => hc ⟨h1, h2⟩)]
      rcases List.mem_cons.mp hmem with heq | hmem'
      · exact absurd ⟨by rw [← heq]; exact hb, by rw [heq]⟩ hc
      · exact findToolResultBlock_isSome b cs hmem' hb

/-- `extractToolResultFromAnthropic` succeeds whenever the wanted
`tool_result` block sits inside some user message of the scanned list. -/
lemma extractToolResultGo_isSome (parse : JsJsonParse) (m : AMessage)
    (bs : List ContentBlock) (b : ContentBlock)
    (hrole : m.role = "user") (hcontent : m.content = .blocks bs)
    (hmem : b ∈ bs) (hb : b.type = "tool_result") :
    ∀ (msgs : List AMessage), m ∈ msgs →
      (extractToolResultGo parse b.tool_use_id msgs).isSome = true
  | [], hm => absurd hm (List.not_mem_nil m)
  | m0 :: rest, hm => by
    unfold extractToolResultGo
    by_cases h0 : m0.role = "user"
    · rw [if_pos h0]
      cases hmc : m0.content with
      | str s =>
        rcases List.mem_cons.mp hm with heq | hm'
        · rw [← heq, hcontent] at hmc; cases hmc
        · exact extractToolResultGo_isSome parse m bs b hrole hcontent hmem hb rest hm'
      | blocks cs =>
        cases cs with
        | nil =>
          rcases List.mem_cons.mp hm with heq | hm'
          · rw [← heq, hcontent] at hmc
            cases hmc
            exact absurd hmem (List.not_mem_nil b)
          · exact extractToolResultGo_isSome parse m bs b hrole hcontent hmem hb rest hm'
        | cons c cs' =>
          show (match findToolResultBlock b.tool_use_id (c :: cs') with
                | some blk => some (parseContentValue parse blk.content)
                | none => extractToolResultGo parse b.tool_use_id rest).isSome = true
          cases hf : findToolResultBlock b.tool_use_id (c :: cs') with
          | some blk => rfl
          | none =>
            rcases List.mem_cons.mp hm with heq | hm'
            · rw [← heq, hcontent] at hmc
              cases hmc
              have hs := findToolResultBlock_isSome b (c :: cs') hmem hb
              rw [hf] at hs
              cases hs
            · exact extractToolResultGo_isSome parse m bs b hrole hcontent hmem hb rest hm'
    · rw [if_neg h0]
      rcases List.mem_cons.mp hm with heq | hm'
      · rw [← heq] at h0; exact absurd hrole h0
      · exact extractToolResultGo_isSome parse m bs b hrole hcontent hmem hb rest hm'

/-- `sanitizeToolCall` succeeds whenever the tool result is extractable. -/
lemma sanitizeToolCall_ok (o : LlmOracle) (config : DualLlmConfig)
    (agentId : String) (allMessages : List AMessage) (toolUseId : String)
    (st : SanState)
    (h : (extractToolResultGo o.jsonParse toolUseId allMessages).isSome = true) :
    ∃ s st1, sanitizeToolCall o config agentId allMessages toolUseId st = .ok (s, st1) := by
  unfold sanitizeToolCall
  cases hc : findByToolCallId st.dualLlmResults toolUseId with
  | some cached => exact ⟨cached, st, rfl⟩
  | none =>
    unfold extractToolResultFromAnthropic
    cases hx : extractToolResultGo o.jsonParse toolUseId allMessages with
    | none => rw [hx] at h; cases h
    | some tr =>
      exact ⟨_, _, rfl⟩

/-- The block loop always succeeds when every `tool_result` block it scans
has an extractable tool result, and its output blocks are pointwise
`blockFrame`-related to the input blocks. -/
lemma processBlocks_ok_frame (o : LlmOracle) (config : DualLlmConfig)
    (evalPolicy : TrustedPolicyEval) (agentId : String)
    (allMessages : List AMessage) :
    ∀ (blocks : List ContentBlock) (u : Bool) (st : SanState),
      (∀ b ∈ blocks, b.type = "tool_result" →
        (extractToolResultGo o.jsonParse b.tool_use_id allMessages).isSome = true) →
      ∃ nbs u2 st2,
        processBlocks o config evalPolicy agentId allMessages blocks u st =
          .ok (nbs, u2, st2) ∧ List.Forall₂ blockFrame blocks nbs := by
  intro blocks
  induction blocks with
  | nil => intro u st _; exact ⟨[], u, st, rfl, List.Forall₂.nil⟩
  | cons b rest ih =>
    intro u st H
    have Hb := fun h => H b (List.mem_cons_self b rest) h
    have Hrest : ∀ x ∈ rest, x.type = "tool_result" →
        (extractToolResultGo o.jsonParse x.tool_use_id allMessages).isSome = true :=
      fun x hx => H x (List.mem_cons_of_mem b hx)
    by_cases hbt : b.type = "tool_result"
    · cases hname : extractToolNameFromMessages allMessages b.tool_use_id with
      | none =>
        obtain ⟨nbs, u2, st2, hpr, hfr⟩ := ih true st Hrest
        refine ⟨b :: nbs, u2, st2, ?_, .cons (blockFrame_refl b) hfr⟩
        simp only [processBlocks]
        rw [if_pos hbt]
        simp only [hname, hpr]
      | some toolName =>
        by_cases hblk :
            (evalPolicy agentId toolName (parseContentValue o.jsonParse b.content)).isBlocked = true
        · obtain ⟨nbs, u2, st2, hpr, hfr⟩ :=
            ih (u || !(evalPolicy agentId toolName
              (parseContentValue o.jsonParse b.content)).isTrusted) st Hrest
          refine ⟨{ b with content := .str ("[Content blocked by policy" ++
              (if (evalPolicy agentId toolName
                    (parseContentValue o.jsonParse b.content)).reason = "" then ""
               else ": " ++ (evalPolicy agentId toolName
                    (parseContentValue o.jsonParse b.content)).reason) ++ "]") } :: nbs,
            u2, st2, ?_,
            .cons ⟨rfl, rfl, rfl, rfl, rfl, fun h => absurd hbt h⟩ hfr⟩
          simp only [processBlocks]
          rw [if_pos hbt]
          simp only [hname]
          rw [if_pos hblk]
          simp only [hpr]
        · by_cases hsan :
              (evalPolicy agentId toolName
                (parseContentValue o.jsonParse b.content)).shouldSanitizeWithDualLlm = true
          · obtain ⟨s, st1, hs⟩ :=
              sanitizeToolCall_ok o config agentId allMessages b.tool_use_id st (Hb hbt)
            obtain ⟨nbs, u2, st2, hpr, hfr⟩ :=
              ih (u || !(evalPolicy agentId toolName
                (parseContentValue o.jsonParse b.content)).isTrusted) st1 Hrest
            refine ⟨{ b with content := .str s } :: nbs, u2, st2, ?_,
              .cons ⟨rfl, rfl, rfl, rfl, rfl, fun h => absurd hbt h⟩ hfr⟩
            simp only [processBlocks]
            rw [if_pos hbt]
            simp only [hname]
            rw [if_neg hblk, if_pos hsan]
            simp only [hs, hpr]
          · obtain ⟨nbs, u2, st2, hpr, hfr⟩ :=
              ih (u || !(evalPolicy agentId toolName
                (parseContentValue o.jsonParse b.content)).isTrusted) st Hrest
            refine ⟨b :: nbs, u2, st2, ?_, .cons (blockFrame_refl b) hfr⟩
            simp only [processBlocks]
            rw [if_pos hbt]
            simp only [hname]
            rw [if_neg hblk, if_neg hsan]
            simp only [hpr]
    · obtain ⟨nbs, u2, st2, hpr, hfr⟩ := ih u st Hrest
      refine ⟨b :: nbs, u2, st2, ?_, .cons (blockFrame_refl b) hfr⟩
      simp only [processBlocks]
      rw [if_neg hbt]
      simp only [hpr]

/-- The message loop always succeeds on messages drawn from the full list,
and its output is pointwise `messageFrame`-related to its input. -/
lemma processMessages_ok_frame (o : LlmOracle) (config : DualLlmConfig)
    (evalPolicy : TrustedPolicyEval) (agentId : String)
    (allMessages : List AMessage) :
    ∀ (msgs : List AMessage) (u : Bool) (st : SanState),
      (∀ m ∈ msgs, m ∈ allMessages) →
      ∃ nms u2 st2,
        processMessages o config evalPolicy agentId allMessages msgs u st =
          .ok (nms, u2, st2) ∧ List.Forall₂ messageFrame msgs nms := by
  intro msgs
  induction msgs with
  | nil => intro u st _; exact ⟨[], u, st, rfl, List.Forall₂.nil⟩
  | cons m rest ih =>
    intro u st H
    have Hm : m ∈ allMessages := H m (List.mem_cons_self m rest)
    have Hrest : ∀ x ∈ rest, x ∈ allMessages :=
      fun x hx => H x (List.mem_cons_of_mem m hx)
    cases hub : userBlocks? m with
    | none =>
      obtain ⟨nms, u2, st2, hpm, hmf⟩ := ih u st Hrest
      refine ⟨m :: nms, u2, st2, ?_, .cons (messageFrame_refl m) hmf⟩
      simp only [processMessages, hub, hpm]
    | some pair =>
      obtain ⟨b, bs⟩ := pair
      obtain ⟨hrole, hcontent⟩ := userBlocks?_eq_some m b bs hub
      have Hblocks : ∀ x ∈ (b :: bs), x.type = "tool_result" →
          (extractToolResultGo o.jsonParse x.tool_use_id allMessages).isSome = true :=
        fun x hx hxt =>
          extractToolResultGo_isSome o.jsonParse m (b :: bs) x hrole hcontent hx hxt
            allMessages Hm
      obtain ⟨nbs, u1, st1, hpb, hbf⟩ :=
        processBlocks_ok_frame o config evalPolicy agentId allMessages (b :: bs) u st Hblocks
      obtain ⟨nms, u2, st2, hpm, hmf⟩ := ih u1 st1 Hrest
      refine ⟨{ m with content := .blocks nbs } :: nms, u2, st2, ?_, ?_⟩
      · simp only [processMessages, hub, hpb, hpm]
      · refine .cons ⟨fun h => ?_, rfl, ?_⟩ hmf
        · rw [hub] at h; cases h
        · simp only [hcontent]
          exact hbf

/-- C10: `evaluateIfContextIsTrusted` is a frame-preserving rewrite.  For
every oracle, configuration, policy evaluator and input it succeeds, and
the output message list is pointwise `messageFrame`-related to the input:
same length and order, every message that is not a user message with
non-empty array content unchanged, roles preserved, and inside rewritten
messages every non-`tool_result` block unchanged — only the `content` of
`tool_result` blocks is ever replaced. -/
theorem c10_frame_preserving_rewrite (o : LlmOracle) (config : DualLlmConfig)
    (evalPolicy : TrustedPolicyEval) (messages : List AMessage)
    (agentId : String) (st : SanState) :
    (∃ out trusted st2,
      evaluateIfContextIsTrusted o config evalPolicy messages agentId st =
        .ok (out, trusted, st2))
    ∧ (∀ out trusted st2,
        evaluateIfContextIsTrusted o config evalPolicy messages agentId st =
          .ok (out, trusted, st2) →
        List.Forall₂ messageFrame messages out) := by
  obtain ⟨nms, u2, st2, hpm, hmf⟩ :=
    processMessages_ok_frame o config evalPolicy agentId messages messages false st
      (fun m hm => hm)
  constructor
  · refine ⟨nms, !u2, st2, ?_⟩
    unfold evaluateIfContextIsTrusted
    rw [hpm]
  · intro out trusted st2' h
    unfold evaluateIfContextIsTrusted at h
    rw [hpm] at h
    have h2 : nms = out := by
      have := Except.ok.inj h
      exact congrArg (fun p => p.1) this
    rw [← h2]
    exact hmf

/-- Witness for C10: a two-message conversation (an assistant text message
and a user message carrying an unknown tool result) evaluates successfully
and the output is frame-related to the input. -/
theorem c10_frame_preserving_rewrite_witness :
    List.Forall₂ messageFrame
      [{ role := "assistant", content := .str "hello" }, toolResultFixtureMsg]
      [{ role := "assistant", content := .str "hello" }, toolResultFixtureMsg] := by
  have h := (c10_frame_preserving_rewrite doneOracle dualConfigFixture
    (fun _ _ _ => { isTrusted := false, isBlocked := false,
                    shouldSanitizeWithDualLlm := false, reason := "" })
    [{ role := "assistant", content := .str "hello" }, toolResultFixtureMsg]
    "ag" { dualLlmResults := [], llmCalls := 0 }).2
    [{ role := "assistant", content := .str "hello" }, toolResultFixtureMsg]
    false { dualLlmResults := [], llmCalls := 0 } (by rfl)
  exact h

/-! ## OpenAI-shape ingress scan (proxy.ts lines 125-160)

The route walks the request's messages; for each `role: "tool"` message it
parses the content, resolves the tool name from the chat's stored
interactions, and — only when a name was found — evaluates the trusted-data
policies and persists the tool message as a (possibly tainted)
`Interaction`. -/

/-- One entry of a stored assistant message's `tool_calls`
(`{id, function: {name}}`). -/
structure OpenAiToolCallRef where
  id : String
  name : String
  deriving Repr, DecidableEq

/-- An OpenAI-shaped message, also used as stored `Interaction.content`;
fields a given role does not use default to empty, and `tool_calls := none`
models an absent field. -/
structure OpenAiMessage where
  role : String
  content : String := ""
  tool_call_id : String := ""
  tool_calls : Option (List OpenAiToolCallRef) := none
  deriving Repr, DecidableEq

/-- One stored `Interaction` row (the fields the route reads/writes). -/
structure Interaction where
  content : OpenAiMessage
  tainted : Bool
  taintReason : String
  deriving Repr, DecidableEq

/-- Inner loop of `extractToolNameFromHistory`: scan an assistant
message's tool calls for the wanted id. -/
def findToolCallRef (toolCallId : String) : List OpenAiToolCallRef → Option String
  | [] => none
  | tc :: rest =>
    if tc.id = toolCallId then some tc.name else findToolCallRef toolCallId rest

/-- Backwards walk of `extractToolNameFromHistory` (the interactions are
already reversed): most recent assistant interaction whose `tool_calls`
(when the field is present — even empty) contains the id. -/
def extractHistoryGo (toolCallId : String) : List Interaction → Option String
  | [] => none
  | row :: rest =>
    if row.content.role = "assistant" then
      match row.content.tool_calls with
      | some tcs =>
        match findToolCallRef toolCallId tcs with
        | some n => some n
        | none => extractHistoryGo toolCallId rest
      | none => extractHistoryGo toolCallId rest
    else extractHistoryGo toolCallId rest

/-- `extractToolNameFromHistory (chatId, toolCallId)` after the chat's
interactions have been fetched in `createdAt` order. -/
def extractToolNameFromHistory (interactions : List Interaction)
    (toolCallId : String) : Option String :=
  extractHistoryGo toolCallId interactions.reverse

/-- The guardrails `TrustedDataPolicyEvaluator` used by the route
(constructed from `{toolName, toolCallId, output}`); its `evaluate()`
returns `{isTrusted, trustReason}`.  The class is not under `src/`, so it
is a parameter. -/
def TrustedGate : Type := String → String → Json → Bool × String

/-- The inbound tool-result scan of the chat-completions route: walk the
request messages threading the visible interaction store (`db`, re-read
per message) and the rows appended by this request.  `.error` models the
bare `JSON.parse` throwing on a tool message's content.  A tool message
whose id resolves to no stored assistant tool call is skipped entirely:
nothing is evaluated and nothing is persisted. -/
def ingressScanGo (evalTrusted : TrustedGate) (parse : JsJsonParse) :
    List OpenAiMessage → List Interaction → List Interaction →
    Except String (List Interaction)
  | [], _, appended => .ok appended
  | msg :: rest, db, appended =>
    if msg.role = "tool" then
      match parse msg.content with
      | .error e => .error e
      | .ok toolResult =>
        match extractToolNameFromHistory db msg.tool_call_id with
        | some toolName =>
          let ev := evalTrusted toolName msg.tool_call_id toolResult
          let row : Interaction :=
            { content := msg, tainted := !ev.1, taintReason := ev.2 }
          ingressScanGo evalTrusted parse rest (db ++ [row]) (appended ++ [row])
        | none => ingressScanGo evalTrusted parse rest db appended
    else ingressScanGo evalTrusted parse rest db appended

/-- The rows persisted by the ingress phase for a request. -/
def ingressScan (evalTrusted : TrustedGate) (parse : JsJsonParse)
    (interactions : List Interaction) (messages : List OpenAiMessage) :
    Except String (List Interaction) :=
  ingressScanGo evalTrusted parse messages interactions []

/-- Counterexample to C8.  A tool-result message whose id matches no
stored assistant tool call: the OpenAI-shape route persists nothing at
all — no `Interaction`, tainted or otherwise, and in particular none with
reason "unknown tool for result" (first conjunct); the Anthropic pipeline
marks the context untrusted and passes the block through unchanged with
no sanitisation (state untouched, second conjunct).  The string
"unknown tool for result" appears nowhere in the source. -/
theorem c8_unknown_tool_counterexample :
    ingressScan (fun _ _ _ => (true, "ok")) (fun _ => .ok .null) []
      [{ role := "tool", content := "42", tool_call_id := "tc1" }] = .ok []
    ∧ evaluateIfContextIsTrusted doneOracle dualConfigFixture
        (fun _ _ _ => { isTrusted := true, isBlocked := false,
                        shouldSanitizeWithDualLlm := false, reason := "" })
        [toolResultFixtureMsg] "ag" { dualLlmResults := [], llmCalls := 0 } =
        .ok ([toolResultFixtureMsg], false, { dualLlmResults := [], llmCalls := 0 }) := by
  exact ⟨rfl, rfl⟩

/-- C8 amended: an inbound tool-result message whose tool name cannot be
resolved is handled fail-open.  In the OpenAI-shape route the message is
skipped entirely: no trusted-data evaluation runs and no `Interaction` is
persisted for it (so no taint and no reason is recorded).  In the
Anthropic pipeline the context is marked untrusted and the block passes
through unchanged, without dual-LLM sanitisation. -/
theorem c8_unknown_tool_fail_open (evalTrusted : TrustedGate) (parse : JsJsonParse)
    (msg : OpenAiMessage) (rest : List OpenAiMessage)
    (db appended : List Interaction) (toolResult : Json)
    (o : LlmOracle) (config : DualLlmConfig) (evalPolicy : TrustedPolicyEval)
    (agentId : String) (allMessages : List AMessage) (b : ContentBlock)
    (brest : List ContentBlock) (u : Bool) (st : SanState) :
    (msg.role = "tool" → parse msg.content = .ok toolResult →
      extractToolNameFromHistory db msg.tool_call_id = none →
      ingressScanGo evalTrusted parse (msg :: rest) db appended =
        ingressScanGo evalTrusted parse rest db appended)
    ∧ (b.type = "tool_result" →
      extractToolNameFromMessages allMessages b.tool_use_id = none →
      processBlocks o config evalPolicy agentId allMessages (b :: brest) u st =
        match processBlocks o config evalPolicy agentId allMessages brest true st with
        | .error e => .error e
        | .ok (nbs, u2, st2) => .ok (b :: nbs, u2, st2)) := by
  constructor
  · intro hrole hparse hname
    simp only [ingressScanGo]
    rw [if_pos hrole]
    simp only [hparse, hname]
  · intro hbt hname
    simp only [processBlocks]
    rw [if_pos hbt]
    simp only [hname]

/-- Witness for the amended C8 at a concrete unresolvable tool call id. -/
theorem c8_unknown_tool_fail_open_witness :
    ingressScanGo (fun _ _ _ => (true, "ok")) (fun _ => .ok .null)
      [{ role := "tool", content := "42", tool_call_id := "tc1" }] [] [] =
      ingressScanGo (fun _ _ _ => (true, "ok")) (fun _ => .ok .null) [] [] [] :=
  (c8_unknown_tool_fail_open (fun _ _ _ => (true, "ok")) (fun _ => .ok .null)
    { role := "tool", content := "42", tool_call_id := "tc1" } [] [] [] .null
    doneOracle dualConfigFixture
    (fun _ _ _ => { isTrusted := true, isBlocked := false,
                    shouldSanitizeWithDualLlm := false, reason := "" })
    "ag" [] { type := "text" } [] false
    { dualLlmResults := [], llmCalls := 0 }).1 rfl rfl rfl

end Archestra
